import Mathlib

/-!
Shallow embedding of `aax2mp3.py` (an audiobook conversion pipeline) and
verification of its specification claims.

Python strings are modelled as lists of characters (`Str := List Char`);
Python floats are modelled as exact rationals (`ℚ`): every numeric value the
claims touch is an exact decimal, so rational arithmetic is a faithful model
of the arithmetic the program performs on them.  External effects (process
exit codes, the filesystem listing, whether a directory exists) are inputs to
the model; the stages the pipeline performs are recorded as an explicit trace.
-/

namespace Aax2mp3

/-- Python `str` is a sequence of code points. -/
abbrev Str := List Char

/-- Coerce a Lean string literal to the character-list model. -/
def str (s : String) : Str := s.data

/-- Python `int()` truncation toward zero on a rational value. -/
def pyInt (q : ℚ) : ℤ := if q < 0 then -⌊-q⌋ else ⌊q⌋

/-- The decimal digit character for `d < 10` (used to render numbers the way
Python's `str`/format rendering does). -/
def digitCh (d : ℕ) : Char :=
  match d with
  | 0 => '0' | 1 => '1' | 2 => '2' | 3 => '3' | 4 => '4'
  | 5 => '5' | 6 => '6' | 7 => '7' | 8 => '8' | _ => '9'

/-- Fuelled helper for decimal rendering; the fuel only bounds the recursion
depth (one digit is emitted per unit of fuel), so any fuel above the digit
count gives the true decimal rendering. -/
def natReprF : ℕ → ℕ → Str
  | 0, _ => []
  | fuel + 1, n =>
    if n < 10 then [digitCh n]
    else natReprF fuel (n / 10) ++ [digitCh (n % 10)]

/-- Decimal rendering of a natural number, as Python renders an `int`
(`n + 1` units of fuel always suffice since `n / 10 < n` for `n ≥ 10`). -/
def natRepr (n : ℕ) : Str := natReprF (n + 1) n

/-- Decimal rendering of an integer, as Python renders an `int`. -/
def intRepr (i : ℤ) : Str :=
  if i < 0 then '-' :: natRepr (-i).toNat else natRepr i.toNat

/-- Two-digit zero-padded rendering (Python `f"{n:02d}"`) for `n < 100`. -/
def pad2 (n : ℕ) : Str :=
  if n < 10 then '0' :: natRepr n else natRepr n

/-- Rendering of a non-negative number of hundredths as a fixed-point decimal
with two fractional digits (`t` hundredths becomes `t/100 "." t%100`). -/
def fmt2nat (t : ℕ) : Str := natRepr (t / 100) ++ '.' :: pad2 (t % 100)

/-- Model of Python `f"{s:.2f}"`: the value is rounded to a whole number of
hundredths and rendered with exactly two fractional digits.  (Python rounds
the underlying binary float half-to-even; the claims under verification
depend only on the shape of the output, not on the rounding direction of
half-way cases, so round-half-up on the exact rational is used.) -/
def fmt2 (s : ℚ) : Str :=
  let t : ℤ := ⌊s * 100 + 1/2⌋
  if t < 0 then '-' :: fmt2nat (-t).toNat else fmt2nat t.toNat

/-- `numfix` from `aax2mp3.py`: convert a number of seconds into the format
handed to mp3splt.  Source:
`m = int(n / 60); s = n - (m * 60); return f"{m}.{s:.2f}"`. -/
def numfix (n : ℚ) : Str :=
  let m : ℤ := pyInt (n / 60)
  let s : ℚ := n - m * 60
  intRepr m ++ '.' :: fmt2 s

/-- One entry of the probed `chapters` sequence.  In the program the times
arrive as decimal strings and are converted with `float()`; they are modelled
directly as the rational values those strings denote.  `title` is the
chapter's `tags.title`, absent when the tag is missing. -/
structure Chapter where
  start_time : ℚ
  end_time : ℚ
  title : Option Str
deriving DecidableEq

/-- A computed split point: either a raw number of seconds (the non-mp3
branch leaves the floats untouched) or an mp3splt-encoded string. -/
inductive SplitPt
  | sec (q : ℚ)
  | enc (s : Str)
deriving DecidableEq

/-- `get_splitpoints` from `aax2mp3.py`.  For the mp3 container the final
chapter's end time is appended and every point is passed through `numfix`;
`md["chapters"][-1]` raises `IndexError` on an empty chapter list, modelled
as `none`. -/
def get_splitpoints (container : String) (chapters : List Chapter) :
    Option (List SplitPt) :=
  let splitpoints := chapters.map (fun c => c.start_time)
  if container = "mp3" then
    match chapters.getLast? with
    | none => none
    | some last =>
        some (((splitpoints ++ [last.end_time]).map (fun q => SplitPt.enc (numfix q))))
  else
    some (splitpoints.map SplitPt.sec)

/-- A decimal digit character (code points 48–57). -/
def isDigitCh (c : Char) : Bool := 48 ≤ c.toNat && c.toNat ≤ 57

/-- Every character of the string is a decimal digit. -/
def digitsOnly (s : Str) : Bool := s.all isDigitCh

/-- Split a string at every `'.'` (Python `s.split(".")`). -/
def splitDot : Str → List Str
  | [] => [[]]
  | c :: rest =>
    if c = '.' then [] :: splitDot rest
    else
      match splitDot rest with
      | [] => [[c]]
      | p :: ps => (c :: p) :: ps

/-- The split-point shape asserted by the claim: `minutes.SS.hh` with the
seconds part zero-padded to exactly two digits and exactly two fractional
digits. -/
def claimedSplitForm (s : Str) : Bool :=
  match splitDot s with
  | [a, b, c] =>
      !a.isEmpty && digitsOnly a && (b.length == 2) && digitsOnly b &&
        (c.length == 2) && digitsOnly c
  | _ => false

/-- The shape `numfix` actually produces for non-negative input: the seconds
part is NOT zero-padded (one or two digits), the fractional part has exactly
two digits. -/
def actualSplitForm (s : Str) : Bool :=
  match splitDot s with
  | [a, b, c] =>
      !a.isEmpty && digitsOnly a && (b.length == 1 || b.length == 2) &&
        digitsOnly b && (c.length == 2) && digitsOnly c
  | _ => false

/-- The characters the sanitization regex keeps unchanged: ASCII letters,
digits, dot, underscore, slash and hyphen (the Python character class is
dot, underscore, slash, hyphen plus alphanumerics, complemented).  Note the
forward slash `/` is in the allowed set. -/
def allowedChar (c : Char) : Bool :=
  (97 ≤ c.toNat && c.toNat ≤ 122) || (65 ≤ c.toNat && c.toNat ≤ 90) ||
    (48 ≤ c.toNat && c.toNat ≤ 57) || c = '.' || c = '_' || c = '/' || c = '-'

/-- Collapse every run of consecutive underscores to a single underscore
(Python `re.sub("_+", "_", s)`). -/
def squeeze : Str → Str
  | [] => []
  | [c] => [c]
  | c :: d :: rest =>
    if c = '_' && d = '_' then squeeze (d :: rest) else c :: squeeze (d :: rest)

/-- `sanitize` from `aax2mp3.py`.  `unicodedata.normalize("NFKD", s)` is an
external library call and is therefore a parameter `nfkd` of the model
(everything proved about `sanitize` holds for an arbitrary normalization
function).  The remaining steps mirror the source: drop non-ASCII code
points (`encode("ascii", "ignore")`), delete single and double quotes,
replace every character outside the allowed class (`allowedChar`) with an
underscore, and collapse underscore runs. -/
def sanitize (nfkd : Str → Str) (s : Str) : Str :=
  let s1 := nfkd s
  let s2 := s1.filter (fun c => decide (c.toNat < 128))
  let s3 := s2.filter (fun c => c != '\'')
  let s4 := s3.filter (fun c => c != '"')
  let s5 := s4.map (fun c => if allowedChar c then c else '_')
  squeeze s5

/-- POSIX `os.path.join` on two components: an absolute second component
discards the first; otherwise a separator is inserted unless the first
component is empty or already ends in a slash. -/
def pyJoin (a b : Str) : Str :=
  if b.head? = some '/' then b
  else if a = [] ∨ a.getLast? = some '/' then a ++ b
  else a ++ '/' :: b

/-- Fuelled helper for Python `str.replace` (replace every occurrence of
`pat`, scanning left to right); the fuel bounds the recursion depth and
`s.length` units always suffice. -/
def replaceAllF : ℕ → Str → Str → Str → Str
  | 0, s, _, _ => s
  | _ + 1, [], _, _ => []
  | fuel + 1, c :: rest, pat, rep =>
    if pat ≠ [] ∧ pat.isPrefixOf (c :: rest) then
      rep ++ replaceAllF fuel (List.drop (pat.length - 1) rest) pat rep
    else c :: replaceAllF fuel rest pat rep

/-- Python `str.replace(pat, rep)` (all occurrences). -/
def replaceAll (s pat rep : Str) : Str := replaceAllF s.length s pat rep

/-- The container-format table `codecs` from `aax2mp3.py`:
requested format ↦ (codec, extension, container). -/
def codecs (container : String) : Option (Str × Str × Str) :=
  if container = "mp3" then some (str "libmp3lame", str "mp3", str "mp3")
  else if container = "aac" then some (str "copy", str "m4a", str "m4a")
  else if container = "m4a" then some (str "copy", str "m4a", str "m4a")
  else if container = "m4b" then some (str "copy", str "m4a", str "m4b")
  else if container = "flac" then some (str "flac", str "flac", str "flac")
  else if container = "opus" then some (str "libopus", str "opus", str "opus")
  else none

/-- The container-level tag mapping of a probe result (`format.tags`); a
field is `none` when the tag is absent from the probed file. -/
structure Tags where
  artist : Option Str
  title : Option Str
  album_artist : Option Str
  album : Option Str
  date : Option Str
  genre : Option Str
  copyright : Option Str
deriving DecidableEq

/-- The `format` object of a probe result.  `bit_rate` and `duration` are
carried for completeness; no pipeline-stage decision depends on them. -/
structure FormatInfo where
  tags : Tags
  bit_rate : Str
  duration : ℚ
deriving DecidableEq

/-- A probe result: container-level format info plus the ordered chapter
sequence. -/
structure Metadata where
  format : FormatInfo
  chapters : List Chapter
deriving DecidableEq

/-- The boolean mode flags of the parsed command line. -/
structure Flags where
  metadata : Bool
  coverimage : Bool
  overwrite : Bool
  mono : Bool
  single : Bool
  keep : Bool
  test : Bool
  verbose : Bool
deriving DecidableEq

/-- Escape a character for Python `repr` of a string quoted with `q`
(a backslash or the active quote character gains a backslash escape). -/
def pyEscChar (q c : Char) : Str := if c = '\\' || c = q then ['\\', c] else [c]

/-- Python `repr` of a string: single-quoted, unless the string contains a
single quote and no double quote, in which case double-quoted. -/
def pyRepr (s : Str) : Str :=
  let q := if '\'' ∈ s ∧ ¬ ('"' ∈ s) then '"' else '\''
  q :: (s.map (pyEscChar q)).flatten ++ [q]

/-- Join strings with a separator. -/
def joinSep (sep : Str) : List Str → Str
  | [] => []
  | [x] => x
  | x :: xs => x ++ sep ++ joinSep sep xs

/-- Python `str()` of a list of strings, e.g. `['a', 'b']`: bracketed,
comma-space separated element `repr`s. -/
def pyStrOfList (l : List Str) : Str :=
  '[' :: joinSep (str ", ") (l.map pyRepr) ++ [']']

/-- Python's substring test `needle in hay`. -/
def containsSub (needle : Str) : Str → Bool
  | [] => needle.isEmpty
  | c :: rest => needle.isPrefixOf (c :: rest) || containsSub needle rest

/-- The idempotence check `convert_file` performs:
`"Chapter " in str(os.listdir(destdir))`. -/
def alreadyProcessedCheck (listing : List Str) : Bool :=
  containsSub (str "Chapter ") (pyStrOfList listing)

/-- The destination directory `convert_file` derives:
`sanitize(os.path.join(outdir, artist, title.replace("/", "-")))`. -/
def derivedDestdir (nfkd : Str → Str) (outdir artist title : Str) : Str :=
  sanitize nfkd (pyJoin (pyJoin outdir artist) (replaceAll title (str "/") (str "-")))

/-- One observable step of the per-file pipeline. -/
inductive Stage
  | metadataError
  | caughtException
  | makedirs (dir : Str)
  | writeMetadata (p : Str)
  | extractCover (p : Str)
  | skipAlreadyProcessed
  | removeExisting (p : Str)
  | transcode (p : Str)
  | split (p : Str)
deriving DecidableEq

/-- Environmental inputs of one `convert_file` run: facts the filesystem and
the external tools decide.  `transcodeExit` is the exit status of the
whole-book transcode invocation — the source never inspects it. -/
structure Env where
  destdirExists : Bool
  listing : List Str
  outputExists : Bool
  transcodeExit : ℤ

/-- `convert_file` from `aax2mp3.py`, as the trace of stages it performs, in
source order: destination-directory derivation from the `artist`/`title`
tags (a missing tag raises `KeyError`, caught and reported as a per-file
metadata error before anything is created); `os.makedirs` when the directory
does not exist; the `metadata.json` dump; return if metadata-only; cover
extraction (failure is non-fatal); return if cover-only; the
`"Chapter " in str(os.listdir(destdir))` skip; removal of an existing
transcode target when overwriting; in test mode a direct jump to the
splitter, otherwise the transcode invocation — whose exit status is ignored —
followed, unless single-file mode, by the split of the transcoded file. -/
def convert_file (nfkd : Str → Str) (fl : Flags) (env : Env) (container : String)
    (outdir fn : Str) (md : Metadata) : List Stage :=
  match md.format.tags.artist, md.format.tags.title with
  | some artist, some title =>
    let destdir := derivedDestdir nfkd outdir artist title
    (if env.destdirExists then [] else [Stage.makedirs destdir]) ++
    [Stage.writeMetadata (destdir ++ str "/metadata.json")] ++
    (if fl.metadata then [] else
      [Stage.extractCover (pyJoin destdir (str "cover.jpg"))] ++
      (if fl.coverimage then [] else
        if alreadyProcessedCheck env.listing then [Stage.skipAlreadyProcessed] else
          match codecs container with
          | none => []
          | some (_, ext, _) =>
            let output := pyJoin destdir (replaceAll fn (str ".aax") ('.' :: ext))
            (if env.outputExists && fl.overwrite then [Stage.removeExisting output] else []) ++
            (if fl.test then [Stage.split output]
             else [Stage.transcode output] ++
               (if fl.single then [] else [Stage.split output]))))
  | _, _ => [Stage.metadataError]

/-- `process_wrapper`: a failed probe leaves `md = None`; `convert_file`
then raises `TypeError`, which the blanket handler catches and reports, and
the worker returns normally either way. -/
def process_wrapper (nfkd : Str → Str) (fl : Flags) (env : Env) (container : String)
    (outdir : Str) (job : Str × Option Metadata) : List Stage :=
  match job.2 with
  | some md => convert_file nfkd fl env container outdir job.1 md
  | none => [Stage.caughtException]

/-- The batch fan-out of `main` (sequential loop or pool map): every job is
processed, each yielding its own trace. -/
def runBatch (nfkd : Str → Str) (fl : Flags) (env : Env) (container : String)
    (outdir : Str) (jobs : List (Str × Option Metadata)) : List (List Stage) :=
  jobs.map (process_wrapper nfkd fl env container outdir)

/-- The `-metadata` argument list of the whole-book transcode command
(`convert_file` lines 424–444): one `-metadata key=value` pair per tag field
present in the source, in source order, then always `track=1/1`. -/
def buildMetadataArgs (tags : Tags) : List Str :=
  (match tags.title with
   | some v => [str "-metadata", str "title=" ++ v]
   | none => []) ++
  (match tags.artist with
   | some v => [str "-metadata", str "artist=" ++ v]
   | none => []) ++
  (match tags.album_artist with
   | some v => [str "-metadata", str "album_artist=" ++ v]
   | none => []) ++
  (match tags.album with
   | some v => [str "-metadata", str "album=" ++ v]
   | none => []) ++
  (match tags.date with
   | some v => [str "-metadata", str "date=" ++ v]
   | none => []) ++
  (match tags.genre with
   | some v => [str "-metadata", str "genre=" ++ v]
   | none => []) ++
  (match tags.copyright with
   | some v => [str "-metadata", str "copyright=" ++ v]
   | none => []) ++
  [str "-metadata", str "track=1/1"]

/-- Render key/value metadata pairs as ffmpeg `-metadata` arguments. -/
def renderMetadataPairs (ps : List (Str × Str)) : List Str :=
  (ps.map (fun p => [str "-metadata", p.1 ++ '=' :: p.2])).flatten

/-- Modelled from the spec: the tag pairs the spec says the whole-book
transcode forwards — each field present in the source, in order, with the
album value "sourced from the container `title` tag" — plus the always-set
`track=1/1`. -/
def specMetadataPairs (tags : Tags) : List (Str × Str) :=
  (match tags.title with | some v => [(str "title", v)] | none => []) ++
  (match tags.artist with | some v => [(str "artist", v)] | none => []) ++
  (match tags.album_artist with | some v => [(str "album_artist", v)] | none => []) ++
  (match tags.album with | some _ => [(str "album", tags.title.getD [])] | none => []) ++
  (match tags.date with | some v => [(str "date", v)] | none => []) ++
  (match tags.genre with | some v => [(str "genre", v)] | none => []) ++
  (match tags.copyright with | some v => [(str "copyright", v)] | none => []) ++
  [(str "track", str "1/1")]

/-- The same pairs with the album value taken from the `album` tag itself —
what the code actually forwards. -/
def actualMetadataPairs (tags : Tags) : List (Str × Str) :=
  (match tags.title with | some v => [(str "title", v)] | none => []) ++
  (match tags.artist with | some v => [(str "artist", v)] | none => []) ++
  (match tags.album_artist with | some v => [(str "album_artist", v)] | none => []) ++
  (match tags.album with | some v => [(str "album", v)] | none => []) ++
  (match tags.date with | some v => [(str "date", v)] | none => []) ++
  (match tags.genre with | some v => [(str "genre", v)] | none => []) ++
  (match tags.copyright with | some v => [(str "copyright", v)] | none => []) ++
  [(str "track", str "1/1")]

/-- Python whitespace for `str.strip()`. -/
def isPySpace (c : Char) : Bool :=
  c = ' ' || c = '\t' || c = '\n' || c = '\r' || c = '\x0b' || c = '\x0c'

/-- Python `str.strip()`. -/
def pyStrip (s : Str) : Str :=
  ((s.dropWhile isPySpace).reverse.dropWhile isPySpace).reverse

/-- Split a string at every occurrence of `sep` (Python `s.split(sep)` for a
one-character separator). -/
def splitOnChar (sep : Char) : Str → List Str
  | [] => [[]]
  | c :: rest =>
    if c = sep then [] :: splitOnChar sep rest
    else
      match splitOnChar sep rest with
      | [] => [[c]]
      | p :: ps => (c :: p) :: ps

/-- Accumulate a digit string as a natural number. -/
def natOfDigits (s : Str) : ℕ := s.foldl (fun a c => 10 * a + (c.toNat - 48)) 0

/-- Model of Python `float()` on the decimal forms an ffmpeg progress stream
emits: optional surrounding whitespace, optional sign, digits with at most
one dot.  Exponent forms do not occur in progress streams and are treated as
unparseable — the caller maps every parse failure to 0 either way. -/
def parseFloat (s : Str) : Option ℚ :=
  let s0 := pyStrip s
  let sr : ℚ × Str :=
    match s0 with
    | '-' :: r => (-1, r)
    | '+' :: r => (1, r)
    | _ => (1, s0)
  let ip := sr.2.takeWhile isDigitCh
  let rest := sr.2.dropWhile isDigitCh
  match rest with
  | [] => if ip.isEmpty then none else some (sr.1 * natOfDigits ip)
  | '.' :: frac =>
    if frac.all isDigitCh && !(ip.isEmpty && frac.isEmpty) then
      some (sr.1 * ((natOfDigits ip : ℚ) + (natOfDigits frac : ℚ) / (10 ^ frac.length)))
    else none
  | _ => none

/-- `parse_ffmpeg_time` from `aax2mp3.py`: `H:MM:SS.ms`, `M:SS.ms` or bare
seconds; any parse failure yields 0. -/
def parse_ffmpeg_time (time_str : Str) : ℚ :=
  match splitOnChar ':' time_str with
  | [h, m, s] =>
    ((parseFloat h).bind fun hv =>
      (parseFloat m).bind fun mv =>
        (parseFloat s).map fun sv => hv * 3600 + mv * 60 + sv).getD 0
  | [m, s] =>
    ((parseFloat m).bind fun mv =>
      (parseFloat s).map fun sv => mv * 60 + sv).getD 0
  | _ => (parseFloat time_str).getD 0

/-- The value an `out_time=` line advances the bar to:
`min(int((current_time / total_duration) * 100), 100)` where `current_time`
parses `line.split("=")[1]`. -/
def lineProgress (total : ℚ) (line : Str) : ℤ :=
  let time_str := ((splitOnChar '=' line).drop 1).headD []
  let current_time := parse_ffmpeg_time time_str
  min (pyInt (current_time / total * 100)) 100

/-- The progress-parsing loop of `run_ffmpeg_with_progress`, as the
successive totals shown by the progress bar (each `pbar.update(delta)` moves
the displayed total by `delta`).  `current_progress` starts at 0; an
`out_time=` line advances the bar to `lineProgress` only when that is
strictly larger than the current value; a `progress=end` line forces the bar
to 100 and stops the loop. -/
def progressLoop (total : ℚ) : List Str → ℤ → List ℤ
  | [], _ => []
  | l :: rest, current =>
    let line := pyStrip l
    if (str "out_time=").isPrefixOf line then
      let new_progress := lineProgress total line
      if current < new_progress then new_progress :: progressLoop total rest new_progress
      else progressLoop total rest current
    else if line = str "progress=end" then [100]
    else progressLoop total rest current

/-- The reported progress values of one progress-tracked execution over a
given sequence of progress-stream lines. -/
def runProgress (total : ℚ) (lines : List Str) : List ℤ :=
  progressLoop total lines 0

/-- The per-chapter output filename of the ffmpeg splitting strategy:
`f"{chapter_num:02d} - {safe_title}.{ext}"` with
`safe_title = sanitize(chapter_title).replace("_", " ")`; an untitled
chapter falls back to `f"Chapter {chapter_num}"`. -/
def chapterFilename (nfkd : Str → Str) (num : ℕ) (title : Option Str) (ext : Str) : Str :=
  let chapter_title := title.getD (str "Chapter " ++ natRepr num)
  let safe_title := (sanitize nfkd chapter_title).map (fun c => if c = '_' then ' ' else c)
  pad2 num ++ str " - " ++ safe_title ++ '.' :: ext

/-- The observable outcome of `split_with_ffmpeg`: the chapter files it
targets (in order), whether every per-chapter invocation succeeded, and
whether it deleted the intermediate file. -/
structure SplitResult where
  outFiles : List Str
  success : Bool
  deletedIntermediate : Bool
deriving DecidableEq

/-- `split_with_ffmpeg` from `aax2mp3.py`.  `exits i` is the exit status of
the i-th chapter's ffmpeg invocation (test mode runs none).  Every chapter
is attempted: one failure marks the whole split failed but later chapters
still run; on success the intermediate source file is deleted unless test or
keep mode is active. -/
def split_with_ffmpeg (nfkd : Str → Str) (fl : Flags) (exits : ℕ → ℤ)
    (destdir : Str) (container : String) (chapters : List Chapter) : SplitResult :=
  let ext :=
    match codecs container with
    | some (_, e, _) => e
    | none => []
  let outFiles :=
    chapters.enum.map
      (fun ic => pyJoin destdir (chapterFilename nfkd (ic.1 + 1) ic.2.title ext))
  let ok := (List.range chapters.length).all (fun i => fl.test || decide (exits i = 0))
  { outFiles := outFiles,
    success := ok,
    deletedIntermediate := ok && !fl.test && !fl.keep }

/-- `p` lies (syntactically) inside directory `dir`: `dir` followed by a
path separator is a prefix of `p`.  No `..`-resolution is modelled — paths
are compared as the strings the program constructs. -/
def withinDir (dir p : Str) : Bool :=
  (if dir.getLast? = some '/' then dir else dir ++ ['/']).isPrefixOf p

/-- The output file paths a pipeline stage writes: the metadata snapshot,
the extracted cover image, and the intermediate transcoded file.  (Chapter
outputs are written by the splitter and accounted separately via
`split_with_ffmpeg`.) -/
def stageWritePaths : Stage → List Str
  | Stage.writeMetadata p => [p]
  | Stage.extractCover p => [p]
  | Stage.transcode p => [p]
  | _ => []

theorem digitCh_isDigit (d : ℕ) : isDigitCh (digitCh d) = true := by
  unfold digitCh
  split <;> decide

theorem natReprF_of_lt_ten (fuel n : ℕ) (hf : 1 ≤ fuel) (h : n < 10) :
    natReprF fuel n = [digitCh n] := by
  match fuel with
  | 0 => omega
  | fuel + 1 =>
    unfold natReprF
    rw [if_pos h]

theorem natReprF_digits (fuel n : ℕ) : ∀ c ∈ natReprF fuel n, isDigitCh c = true := by
  induction fuel generalizing n with
  | zero => simp [natReprF]
  | succ fuel ih =>
    unfold natReprF
    split
    · intro c hc
      simp only [List.mem_singleton] at hc
      subst hc
      exact digitCh_isDigit n
    · intro c hc
      rw [List.mem_append] at hc
      rcases hc with hc | hc
      · exact ih (n / 10) c hc
      · simp only [List.mem_singleton] at hc
        subst hc
        exact digitCh_isDigit _

theorem natRepr_digits (n : ℕ) : ∀ c ∈ natRepr n, isDigitCh c = true :=
  natReprF_digits (n + 1) n

theorem natRepr_ne_nil (n : ℕ) : natRepr n ≠ [] := by
  unfold natRepr natReprF
  split <;> simp

theorem natRepr_length_of_lt_ten (n : ℕ) (h : n < 10) : (natRepr n).length = 1 := by
  rw [natRepr, natReprF_of_lt_ten _ _ (by omega) h]
  rfl

theorem natRepr_length_of_lt_hundred (n : ℕ) (h : n < 100) :
    (natRepr n).length = 1 ∨ (natRepr n).length = 2 := by
  by_cases h10 : n < 10
  · exact Or.inl (natRepr_length_of_lt_ten n h10)
  · right
    unfold natRepr natReprF
    rw [if_neg h10]
    rw [List.length_append, natReprF_of_lt_ten _ _ (by omega) (by omega)]
    rfl

theorem pad2_length (n : ℕ) (h : n < 100) : (pad2 n).length = 2 := by
  unfold pad2
  split
  · rename_i h10
    simp [natRepr_length_of_lt_ten n h10]
  · rename_i h10
    unfold natRepr natReprF
    rw [if_neg h10]
    rw [List.length_append, natReprF_of_lt_ten _ _ (by omega) (by omega)]
    rfl

theorem pad2_digits (n : ℕ) : ∀ c ∈ pad2 n, isDigitCh c = true := by
  unfold pad2
  split
  · intro c hc
    rw [List.mem_cons] at hc
    rcases hc with rfl | hc
    · decide
    · exact natRepr_digits n c hc
  · exact natRepr_digits n

theorem digits_no_dot {s : Str} (h : ∀ c ∈ s, isDigitCh c = true) :
    ∀ c ∈ s, c ≠ '.' := by
  intro c hc
  have := h c hc
  intro he
  subst he
  simp [isDigitCh] at this

theorem splitDot_ne_nil (s : Str) : splitDot s ≠ [] := by
  match s with
  | [] => simp [splitDot]
  | c :: rest =>
    unfold splitDot
    split
    · simp
    · split <;> simp

theorem splitDot_of_no_dot (s : Str) (h : ∀ c ∈ s, c ≠ '.') :
    splitDot s = [s] := by
  induction s with
  | nil => rfl
  | cons c rest ih =>
    unfold splitDot
    rw [if_neg (h c (by simp))]
    rw [ih (fun x hx => h x (List.mem_cons_of_mem c hx))]

theorem splitDot_cons (c : Char) (rest : Str) :
    splitDot (c :: rest) =
      if c = '.' then [] :: splitDot rest
      else
        match splitDot rest with
        | [] => [[c]]
        | p :: ps => (c :: p) :: ps := rfl

theorem splitDot_append (a r : Str) (ha : ∀ c ∈ a, c ≠ '.') :
    splitDot (a ++ '.' :: r) = a :: splitDot r := by
  induction a with
  | nil =>
    simp only [List.nil_append]
    rw [splitDot_cons, if_pos rfl]
  | cons c rest ih =>
    simp only [List.cons_append]
    rw [splitDot_cons, if_neg (ha c (by simp))]
    rw [ih (fun x hx => ha x (List.mem_cons_of_mem c hx))]

theorem pyInt_of_nonneg (q : ℚ) (h : 0 ≤ q) : pyInt q = ⌊q⌋ := by
  unfold pyInt
  rw [if_neg (not_lt.2 h)]

/-- Structure of `numfix` on non-negative input: an unpadded minutes part, a
dot, an unpadded whole-seconds part (at most `60`, hence one or two digits),
a dot, and a two-digit hundredths part. -/
theorem numfix_nonneg_eq (q : ℚ) (h : 0 ≤ q) :
    ∃ mn tn : ℕ, tn ≤ 6000 ∧
      numfix q = natRepr mn ++ '.' :: (natRepr (tn / 100) ++ '.' :: pad2 (tn % 100)) := by
  have h60 : (0 : ℚ) ≤ q / 60 := by positivity
  have hm : pyInt (q / 60) = ⌊q / 60⌋ := pyInt_of_nonneg _ h60
  have hm0 : (0 : ℤ) ≤ ⌊q / 60⌋ := Int.floor_nonneg.2 h60
  have hfl : ((⌊q / 60⌋ : ℚ)) ≤ q / 60 := Int.floor_le _
  have hfu : q / 60 < (⌊q / 60⌋ : ℚ) + 1 := Int.lt_floor_add_one _
  have hs0 : (0 : ℚ) ≤ q - ⌊q / 60⌋ * 60 := by linarith
  have hs60 : q - ⌊q / 60⌋ * 60 < 60 := by linarith
  have ht0 : (0 : ℤ) ≤ ⌊(q - ⌊q / 60⌋ * 60) * 100 + 1 / 2⌋ := by
    apply Int.floor_nonneg.2
    linarith
  have ht1 : ⌊(q - ⌊q / 60⌋ * 60) * 100 + 1 / 2⌋ < 6001 := by
    apply Int.floor_lt.2
    push_cast
    linarith
  refine ⟨(⌊q / 60⌋).toNat, (⌊(q - ⌊q / 60⌋ * 60) * 100 + 1 / 2⌋).toNat, by omega, ?_⟩
  simp only [numfix, intRepr, fmt2, fmt2nat]
  rw [hm]
  rw [if_neg (by omega : ¬ ⌊q / 60⌋ < 0)]
  rw [if_neg (by omega : ¬ ⌊(q - ⌊q / 60⌋ * 60) * 100 + 1 / 2⌋ < 0)]

/-- C4 (amended): for every non-negative number of seconds, `numfix` produces
`minutes.S.hh` or `minutes.SS.hh`: a non-empty all-digit minutes part, a
whole-seconds part of one or two digits WITHOUT zero padding, and exactly two
fractional (hundredths) digits. -/
theorem c4_splitpoint_encoding_shape (q : ℚ) (h : 0 ≤ q) :
    actualSplitForm (numfix q) = true := by
  obtain ⟨mn, tn, htn, heq⟩ := numfix_nonneg_eq q h
  rw [heq]
  unfold actualSplitForm
  rw [splitDot_append _ _ (digits_no_dot (natRepr_digits mn))]
  rw [splitDot_append _ _ (digits_no_dot (natRepr_digits (tn / 100)))]
  rw [splitDot_of_no_dot _ (digits_no_dot (pad2_digits (tn % 100)))]
  have l2 : (natRepr (tn / 100)).length = 1 ∨ (natRepr (tn / 100)).length = 2 :=
    natRepr_length_of_lt_hundred _ (by omega)
  have l3 : (pad2 (tn % 100)).length = 2 := pad2_length _ (by omega)
  simp only [Bool.and_eq_true, Bool.or_eq_true, beq_iff_eq, Bool.not_eq_true',
    List.isEmpty_eq_false, digitsOnly, List.all_eq_true]
  refine ⟨⟨⟨⟨⟨?_, ?_⟩, ?_⟩, ?_⟩, l3⟩, ?_⟩
  · exact natRepr_ne_nil mn
  · exact natRepr_digits mn
  · omega
  · exact natRepr_digits (tn / 100)
  · exact pad2_digits (tn % 100)

/-- C4 witness: the theorem applied at `q = 251/2` (125.5 seconds). -/
theorem c4_splitpoint_encoding_shape_witness :
    actualSplitForm (numfix (251 / 2)) = true :=
  c4_splitpoint_encoding_shape (251 / 2) (by norm_num)

/-- C4 counterexample: 65 seconds encodes as `"1.5.00"`, whose seconds part
`"5"` is NOT zero-padded to two digits, refuting the claimed
`minutes.SS.hh`-with-two-digit-seconds shape. -/
theorem c4_counterexample :
    numfix 65 = str "1.5.00" ∧ claimedSplitForm (numfix 65) = false := by
  have hm : pyInt ((65 : ℚ) / 60) = 1 := by
    rw [pyInt_of_nonneg _ (by norm_num)]
    norm_num [Int.floor_eq_iff]
  have e1 : numfix 65 = intRepr 1 ++ '.' :: fmt2 5 := by
    simp only [numfix]
    rw [hm]
    norm_num
  have ht : ⌊(5 : ℚ) * 100 + 1 / 2⌋ = 500 := by
    norm_num [Int.floor_eq_iff]
  have e2 : fmt2 5 = fmt2nat 500 := by
    simp only [fmt2]
    rw [ht]
    rfl
  rw [e1, e2]
  constructor <;> decide

/-- C3: for a non-empty chapter list, the mp3 (binary-split) boundary
calculation returns exactly `N + 1` split points: the `N` chapter start times
in order, each `numfix`-encoded, followed by one terminal point equal to the
final chapter's end time. -/
theorem c3_mp3_splitpoints (chapters : List Chapter) (h : chapters ≠ []) :
    get_splitpoints "mp3" chapters =
      some (chapters.map (fun c => SplitPt.enc (numfix c.start_time)) ++
        [SplitPt.enc (numfix (chapters.getLast h).end_time)]) ∧
    ∀ pts, get_splitpoints "mp3" chapters = some pts →
      pts.length = chapters.length + 1 := by
  have hl : chapters.getLast? = some (chapters.getLast h) := List.getLast?_eq_getLast _ h
  have h1 : get_splitpoints "mp3" chapters =
      some (chapters.map (fun c => SplitPt.enc (numfix c.start_time)) ++
        [SplitPt.enc (numfix (chapters.getLast h).end_time)]) := by
    unfold get_splitpoints
    rw [if_pos rfl, hl]
    simp [List.map_append, Function.comp]
  refine ⟨h1, ?_⟩
  intro pts hp
  rw [h1] at hp
  cases hp
  simp

/-- C3 witness: a one-chapter book (start 0, end 125.5 s) yields two split
points: the encoded start plus the encoded terminal end time. -/
theorem c3_mp3_splitpoints_witness :
    get_splitpoints "mp3" [⟨0, 251 / 2, none⟩] =
      some [SplitPt.enc (numfix 0), SplitPt.enc (numfix (251 / 2))] := by
  have h := (c3_mp3_splitpoints [⟨0, 251 / 2, none⟩] (by simp)).1
  simpa using h

/-- C2 counterexample: with the mp3 (binary-split) strategy and an empty
chapter sequence, boundary calculation does NOT return an empty sequence: it
fails (the source indexes `md["chapters"][-1]`, raising `IndexError`). -/
theorem c2_counterexample : get_splitpoints "mp3" ([] : List Chapter) = none := rfl

theorem squeeze_subset : ∀ (s : Str), ∀ c ∈ squeeze s, c ∈ s
  | [] => by simp [squeeze]
  | [c] => by simp [squeeze]
  | a :: b :: rest => by
    intro c hc
    simp only [squeeze] at hc
    split at hc
    · exact List.mem_cons_of_mem a (squeeze_subset (b :: rest) c hc)
    · rw [List.mem_cons] at hc
      rcases hc with rfl | hc
      · exact List.mem_cons_self _ _
      · exact List.mem_cons_of_mem a (squeeze_subset (b :: rest) c hc)

theorem allowedChar_props (c : Char) (h : allowedChar c = true) :
    c.toNat < 128 ∧ c ≠ '\'' ∧ c ≠ '"' := by
  unfold allowedChar at h
  simp only [Bool.or_eq_true, Bool.and_eq_true, decide_eq_true_eq] at h
  rcases h with ((((((h | h) | h) | h) | h) | h) | h)
  · exact ⟨by omega, fun he => by subst he; exact absurd h (by decide),
      fun he => by subst he; exact absurd h (by decide)⟩
  · exact ⟨by omega, fun he => by subst he; exact absurd h (by decide),
      fun he => by subst he; exact absurd h (by decide)⟩
  · exact ⟨by omega, fun he => by subst he; exact absurd h (by decide),
      fun he => by subst he; exact absurd h (by decide)⟩
  · subst h; exact ⟨by decide, by decide, by decide⟩
  · subst h; exact ⟨by decide, by decide, by decide⟩
  · subst h; exact ⟨by decide, by decide, by decide⟩
  · subst h; exact ⟨by decide, by decide, by decide⟩

/-- C7 (amended): every character of a sanitized string is ASCII and is
neither a single nor a double quote.  (Path separators, by contrast, are NOT
excluded: `/` is in the allowed class and passes through — see the
counterexample.)  Proved for an arbitrary NFKD normalization function. -/
theorem c7_sanitize_output_chars (nfkd : Str → Str) (s : Str) :
    ∀ c ∈ sanitize nfkd s, c.toNat < 128 ∧ c ≠ '\'' ∧ c ≠ '"' := by
  intro c hc
  simp only [sanitize] at hc
  have h := squeeze_subset _ c hc
  rw [List.mem_map] at h
  obtain ⟨a, _, rfl⟩ := h
  by_cases hall : allowedChar a = true
  · rw [if_pos hall]
    exact allowedChar_props a hall
  · rw [if_neg hall]
    exact ⟨by decide, by decide, by decide⟩

/-- C7 witness: `/` is a character of `sanitize(id, "a/b")`, and the theorem
instantiated there certifies it is ASCII and not a quote. -/
theorem c7_sanitize_output_chars_witness :
    ('/' ∈ sanitize id (str "a/b")) ∧
      ('/').toNat < 128 ∧ '/' ≠ '\'' ∧ '/' ≠ '"' :=
  ⟨by decide, c7_sanitize_output_chars id (str "a/b") '/' (by decide)⟩

/-- C7 counterexample: `sanitize` leaves `"a/b"` unchanged — the output
contains the path separator `/`, refuting "no path separator characters in
the output". -/
theorem c7_counterexample :
    sanitize id (str "a/b") = str "a/b" ∧ '/' ∈ sanitize id (str "a/b") := by
  constructor <;> decide

/-- C8 (amended): the whole-book transcode emits a `-metadata` pair exactly
for the tag fields present in the source (absent fields are omitted, never
forwarded as empty strings), in source order, and always appends
`track=1/1`; the album value, however, is sourced from the `album` tag
itself, not from the container `title` tag. -/
theorem c8_metadata_args (tags : Tags) :
    buildMetadataArgs tags = renderMetadataPairs (actualMetadataPairs tags) := by
  obtain ⟨t, a, aa, al, d, g, cp⟩ := tags
  unfold buildMetadataArgs renderMetadataPairs actualMetadataPairs
  cases t <;> cases a <;> cases aa <;> cases al <;> cases d <;> cases g <;> cases cp <;> rfl

/-- C8 counterexample: with `album = "AlbumX"` and `title = "TitleY"`, the
emitted arguments carry `album=AlbumX` and not `album=TitleY` — the album
value is NOT sourced from the container `title` tag, refuting that part of
the claim (and refuting agreement with the spec-modelled pair list). -/
theorem c8_counterexample :
    buildMetadataArgs
        ⟨none, some (str "TitleY"), none, some (str "AlbumX"), none, none, none⟩ ≠
      renderMetadataPairs
        (specMetadataPairs
          ⟨none, some (str "TitleY"), none, some (str "AlbumX"), none, none, none⟩) ∧
    str "album=AlbumX" ∈
      buildMetadataArgs
        ⟨none, some (str "TitleY"), none, some (str "AlbumX"), none, none, none⟩ ∧
    str "album=TitleY" ∉
      buildMetadataArgs
        ⟨none, some (str "TitleY"), none, some (str "AlbumX"), none, none, none⟩ := by
  refine ⟨?_, ?_, ?_⟩ <;> decide

/-- C6: when the probed tags lack `artist` or `title`, `convert_file`
performs exactly the per-file metadata-error report: no directory is created
(no `makedirs` stage, nor any other stage), and a batch containing such a
file still processes every other file exactly as it would alone. -/
theorem c6_missing_tag_aborts (nfkd : Str → Str) (fl : Flags) (env : Env)
    (container : String) (outdir fn : Str) (md : Metadata)
    (h : md.format.tags.artist = none ∨ md.format.tags.title = none) :
    convert_file nfkd fl env container outdir fn md = [Stage.metadataError] ∧
    (∀ d, Stage.makedirs d ∉ convert_file nfkd fl env container outdir fn md) ∧
    (∀ pre post,
      runBatch nfkd fl env container outdir (pre ++ (fn, some md) :: post) =
        runBatch nfkd fl env container outdir pre ++
          [Stage.metadataError] :: runBatch nfkd fl env container outdir post) := by
  have h1 : convert_file nfkd fl env container outdir fn md = [Stage.metadataError] := by
    rcases hA : md.format.tags.artist with _ | artist
    · simp [convert_file, hA]
    · rcases hT : md.format.tags.title with _ | title
      · simp [convert_file, hA, hT]
      · rcases h with h | h
        · rw [hA] at h; cases h
        · rw [hT] at h; cases h
  refine ⟨h1, ?_, ?_⟩
  · intro d
    rw [h1]
    simp
  · intro pre post
    unfold runBatch
    rw [List.map_append, List.map_cons]
    congr 1
    simp only [process_wrapper]
    rw [h1]

/-- C6 witness: a probe result whose tags carry a title but no artist is
aborted with the metadata error alone. -/
theorem c6_missing_tag_aborts_witness :
    convert_file id ⟨false, false, false, false, false, false, false, false⟩
        ⟨false, [], false, 0⟩ "mp3" (str "Audiobooks") (str "book.aax")
        ⟨⟨⟨none, some (str "B"), none, none, none, none, none⟩, str "64000", 0⟩, []⟩ =
      [Stage.metadataError] :=
  (c6_missing_tag_aborts id ⟨false, false, false, false, false, false, false, false⟩
    ⟨false, [], false, 0⟩ "mp3" (str "Audiobooks") (str "book.aax")
    ⟨⟨⟨none, some (str "B"), none, none, none, none, none⟩, str "64000", 0⟩, []⟩
    (Or.inl rfl)).1

theorem containsSub_of_substring (needle hay : Str) (h : needle <:+: hay) :
    containsSub needle hay = true := by
  induction hay with
  | nil =>
    rw [List.infix_nil] at h
    subst h
    rfl
  | cons c rest ih =>
    rw [List.infix_cons_iff] at h
    unfold containsSub
    rw [Bool.or_eq_true]
    rcases h with h | h
    · exact Or.inl ((List.isPrefixOf_iff_prefix).2 h)
    · exact Or.inr (ih h)

theorem mem_joinSep_inside (sep : Str) : ∀ (l : List Str), ∀ x ∈ l, x <:+: joinSep sep l
  | [] => by simp
  | [a] => by
    intro x hx
    rw [List.mem_singleton] at hx
    subst hx
    exact List.infix_refl x
  | a :: b :: t => by
    intro x hx
    rw [List.mem_cons] at hx
    rcases hx with rfl | hx
    · show x <:+: x ++ sep ++ joinSep sep (b :: t)
      rw [List.append_assoc]
      exact (List.prefix_append _ _).isInfix
    · exact List.IsInfix.trans (mem_joinSep_inside sep (b :: t) x hx)
        ((List.suffix_append _ _).isInfix)

theorem flatten_escape_id (q : Char) (x : Str)
    (hx : ∀ c ∈ x, c ≠ '\\' ∧ c ≠ q) :
    (x.map (pyEscChar q)).flatten = x := by
  induction x with
  | nil => rfl
  | cons c rest ih =>
    rw [List.map_cons, List.flatten_cons]
    have hc := hx c (by simp)
    have he : pyEscChar q c = [c] := by
      unfold pyEscChar
      rw [if_neg (by simp [hc.1, hc.2])]
    rw [he, ih (fun a ha => hx a (List.mem_cons_of_mem c ha))]
    rfl

theorem infix_pyRepr (x s : Str)
    (hx : ∀ c ∈ x, c ≠ '\\' ∧ c ≠ '\'' ∧ c ≠ '"')
    (h : x <:+: s) : x <:+: pyRepr s := by
  obtain ⟨u, v, huv⟩ := h
  simp only [pyRepr]
  set q := if '\'' ∈ s ∧ ¬ ('"' ∈ s) then '"' else '\'' with hq
  have hq' : q = '"' ∨ q = '\'' := by
    rw [hq]
    split
    · exact Or.inl rfl
    · exact Or.inr rfl
  have hesc : (x.map (pyEscChar q)).flatten = x := by
    apply flatten_escape_id
    intro c hc
    have hcc := hx c hc
    refine ⟨hcc.1, ?_⟩
    rcases hq' with h' | h'
    · rw [h']; exact hcc.2.2
    · rw [h']; exact hcc.2.1
  rw [← huv, List.map_append, List.map_append, List.flatten_append,
    List.flatten_append, hesc]
  exact ⟨q :: (u.map (pyEscChar q)).flatten, (v.map (pyEscChar q)).flatten ++ [q],
    by simp⟩

theorem alreadyProcessedCheck_of_entry (listing : List Str) (e : Str)
    (he : e ∈ listing) (hx : str "Chapter " <:+: e) :
    alreadyProcessedCheck listing = true := by
  unfold alreadyProcessedCheck
  apply containsSub_of_substring
  have h1 : str "Chapter " <:+: pyRepr e := infix_pyRepr _ _ (by decide) hx
  have h2 : pyRepr e <:+: joinSep (str ", ") (listing.map pyRepr) :=
    mem_joinSep_inside _ _ _ (List.mem_map_of_mem _ he)
  obtain ⟨u, v, huv⟩ := h1.trans h2
  unfold pyStrOfList
  exact ⟨'[' :: u, v ++ [']'], by rw [← huv]; simp⟩

/-- C5 (amended): the "already processed" skip triggers exactly on the
substring `"Chapter "` appearing in the Python string rendering of the
destination directory listing — in particular whenever some listed filename
contains `"Chapter "`, which is the mp3splt naming scheme (`Chapter @n`).
When it triggers, the pipeline stops before the transcode stage.  A listing
whose chapter files match only the ffmpeg naming scheme `NN - Title.ext`
does NOT trigger it (see the counterexample): re-running then re-invokes the
transcode. -/
theorem c5_skip_on_chapter_marker (nfkd : Str → Str) (fl : Flags) (env : Env)
    (container : String) (outdir fn : Str) (md : Metadata) (artist title e : Str)
    (hA : md.format.tags.artist = some artist)
    (hT : md.format.tags.title = some title)
    (hM : fl.metadata = false) (hC : fl.coverimage = false)
    (he : e ∈ env.listing) (hx : str "Chapter " <:+: e) :
    Stage.skipAlreadyProcessed ∈ convert_file nfkd fl env container outdir fn md ∧
    ∀ p, Stage.transcode p ∉ convert_file nfkd fl env container outdir fn md := by
  have hchk := alreadyProcessedCheck_of_entry env.listing e he hx
  constructor
  · cases hE : env.destdirExists <;>
      simp [convert_file, hA, hT, hM, hC, hchk, hE]
  · intro p
    cases hE : env.destdirExists <;>
      simp [convert_file, hA, hT, hM, hC, hchk, hE]

/-- C5 witness: a listing containing the mp3splt-named file `Chapter 1.mp3`
makes the pipeline skip. -/
theorem c5_skip_on_chapter_marker_witness :
    Stage.skipAlreadyProcessed ∈
      convert_file id ⟨false, false, false, false, false, false, false, false⟩
        ⟨true, [str "Chapter 1.mp3"], false, 0⟩ "mp3" (str "Audiobooks")
        (str "book.aax")
        ⟨⟨⟨some (str "A"), some (str "B"), none, none, none, none, none⟩,
          str "64000", 0⟩, []⟩ :=
  (c5_skip_on_chapter_marker id
    ⟨false, false, false, false, false, false, false, false⟩
    ⟨true, [str "Chapter 1.mp3"], false, 0⟩ "mp3" (str "Audiobooks")
    (str "book.aax")
    ⟨⟨⟨some (str "A"), some (str "B"), none, none, none, none, none⟩,
      str "64000", 0⟩, []⟩
    (str "A") (str "B") (str "Chapter 1.mp3") rfl rfl rfl rfl (by decide)
    (by decide)).1

/-- C5 counterexample: a destination directory already containing the ffmpeg-scheme
chapter output `01 - Intro.m4a` is NOT treated as already processed — the
transcode stage runs again, refuting the claim for that naming scheme. -/
theorem c5_counterexample :
    Stage.transcode (str "Audiobooks/A/B/book.m4a") ∈
      convert_file id ⟨false, false, false, false, false, false, false, false⟩
        ⟨true, [str "01 - Intro.m4a"], false, 0⟩ "m4a" (str "Audiobooks")
        (str "book.aax")
        ⟨⟨⟨some (str "A"), some (str "B"), none, none, none, none, none⟩,
          str "64000", 0⟩, []⟩ ∧
    Stage.skipAlreadyProcessed ∉
      convert_file id ⟨false, false, false, false, false, false, false, false⟩
        ⟨true, [str "01 - Intro.m4a"], false, 0⟩ "m4a" (str "Audiobooks")
        (str "book.aax")
        ⟨⟨⟨some (str "A"), some (str "B"), none, none, none, none, none⟩,
          str "64000", 0⟩, []⟩ := by
  constructor <;> decide

/-- C1 (amended): the whole-book transcode's exit status is never inspected.
The trace is identical for any two exit statuses, and whenever the pipeline
reaches the transcode stage (tags present, not metadata- or cover-only, not
already processed, not test mode) outside single-file mode, the split of the
same output file is attempted regardless of that exit status. -/
theorem c1_transcode_exit_ignored (nfkd : Str → Str) (fl : Flags) (env : Env)
    (container : String) (outdir fn : Str) (md : Metadata) (e1 e2 : ℤ)
    (artist title : Str) (cod : Str × Str × Str)
    (hA : md.format.tags.artist = some artist)
    (hT : md.format.tags.title = some title)
    (hM : fl.metadata = false) (hC : fl.coverimage = false)
    (hchk : alreadyProcessedCheck env.listing = false)
    (hcod : codecs container = some cod)
    (hTest : fl.test = false) (hS : fl.single = false) :
    convert_file nfkd fl { env with transcodeExit := e1 } container outdir fn md =
      convert_file nfkd fl { env with transcodeExit := e2 } container outdir fn md ∧
    ∀ p,
      Stage.transcode p ∈
        convert_file nfkd fl { env with transcodeExit := e1 } container outdir fn md →
      Stage.split p ∈
        convert_file nfkd fl { env with transcodeExit := e1 } container outdir fn md := by
  refine ⟨rfl, ?_⟩
  intro p hp
  obtain ⟨cdc, ext, ctr⟩ := cod
  cases hE : env.destdirExists <;> cases hO : env.outputExists && fl.overwrite <;>
    simp_all [convert_file]

/-- C1 witness: with a recorded exit status of 3 for the transcode, the split
stage still runs on the transcoded file. -/
theorem c1_transcode_exit_ignored_witness :
    Stage.split (str "Audiobooks/A/B/book.mp3") ∈
      convert_file id ⟨false, false, false, false, false, false, false, false⟩
        ⟨true, [], false, 3⟩ "mp3" (str "Audiobooks") (str "book.aax")
        ⟨⟨⟨some (str "A"), some (str "B"), none, none, none, none, none⟩,
          str "64000", 0⟩, []⟩ :=
  (c1_transcode_exit_ignored id ⟨false, false, false, false, false, false, false, false⟩
    ⟨true, [], false, 0⟩ "mp3" (str "Audiobooks") (str "book.aax")
    ⟨⟨⟨some (str "A"), some (str "B"), none, none, none, none, none⟩,
      str "64000", 0⟩, []⟩ 3 5 (str "A") (str "B")
    (str "libmp3lame", str "mp3", str "mp3") rfl rfl rfl rfl (by decide) rfl rfl
    rfl).2 (str "Audiobooks/A/B/book.mp3") (by decide)

/-- C1 counterexample: with a non-zero recorded transcode exit status (1),
the split stage IS attempted — the pipeline is not aborted at the transcode
stage, refuting the claim. -/
theorem c1_counterexample :
    Stage.split (str "Audiobooks/A/B/book.mp3") ∈
      convert_file id ⟨false, false, false, false, false, false, false, false⟩
        ⟨true, [], false, 1⟩ "mp3" (str "Audiobooks") (str "book.aax")
        ⟨⟨⟨some (str "A"), some (str "B"), none, none, none, none, none⟩,
          str "64000", 0⟩, []⟩ := by
  decide

theorem withinDir_slash_append (d s : Str) : withinDir d (d ++ '/' :: s) = true := by
  unfold withinDir
  split
  · rw [List.isPrefixOf_iff_prefix]
    exact List.prefix_append _ _
  · rw [List.isPrefixOf_iff_prefix]
    have : d ++ '/' :: s = (d ++ ['/']) ++ s := by simp
    rw [this]
    exact List.prefix_append _ _

theorem withinDir_pyJoin (d b : Str) (hd : d ≠ []) (hb : b.head? ≠ some '/') :
    withinDir d (pyJoin d b) = true := by
  unfold pyJoin
  rw [if_neg hb]
  by_cases hL : d.getLast? = some '/'
  · rw [if_pos (Or.inr hL)]
    unfold withinDir
    rw [if_pos hL, List.isPrefixOf_iff_prefix]
    exact List.prefix_append _ _
  · rw [if_neg (by rintro (h | h); exacts [hd h, hL h])]
    exact withinDir_slash_append d b

theorem pad2_ne_nil (n : ℕ) : pad2 n ≠ [] := by
  unfold pad2
  split
  · simp
  · exact natRepr_ne_nil n

theorem chapterFilename_head_ne_slash (nfkd : Str → Str) (num : ℕ)
    (title : Option Str) (ext : Str) :
    (chapterFilename nfkd num title ext).head? ≠ some '/' := by
  unfold chapterFilename
  simp only [List.append_assoc]
  rw [List.head?_append_of_ne_nil _ (pad2_ne_nil num)]
  intro heq
  have hmem : '/' ∈ pad2 num := List.mem_of_mem_head? (by rw [heq]; rfl)
  have := pad2_digits num '/' hmem
  simp [isDigitCh] at this

theorem replaceAll_head_ne_slash (s pat rep : Str) (hs : s.head? ≠ some '/')
    (hrep : rep.head? ≠ some '/') (hrepn : rep ≠ []) :
    (replaceAll s pat rep).head? ≠ some '/' := by
  unfold replaceAll
  cases s with
  | nil => simp [replaceAllF]
  | cons c rest =>
    simp only [List.length_cons]
    unfold replaceAllF
    split
    · cases rep with
      | nil => exact absurd rfl hrepn
      | cons r rtl => simpa using hrep
    · simpa using hs

/-- C10 (amended): provided the input filename is not an absolute path (and
the derived destination directory is non-empty), every file path the
pipeline writes for that input — the metadata snapshot, the cover image, the
intermediate transcoded file, and every ffmpeg-strategy chapter output —
has the derived destination directory as a (syntactic) path prefix.  For an
absolute input filename this FAILS for the intermediate transcoded file:
`os.path.join` discards the destination directory (see the
counterexample). -/
theorem c10_paths_within_destdir (nfkd : Str → Str) (fl : Flags) (env : Env)
    (container : String) (outdir fn : Str) (md : Metadata)
    (artist title : Str) (exits : ℕ → ℤ) (chapters : List Chapter)
    (hA : md.format.tags.artist = some artist)
    (hT : md.format.tags.title = some title)
    (hfn : fn.head? ≠ some '/')
    (hD : derivedDestdir nfkd outdir artist title ≠ []) :
    (∀ st ∈ convert_file nfkd fl env container outdir fn md,
      ∀ p ∈ stageWritePaths st,
        withinDir (derivedDestdir nfkd outdir artist title) p = true) ∧
    (∀ q ∈ (split_with_ffmpeg nfkd fl exits (derivedDestdir nfkd outdir artist title)
        container chapters).outFiles,
      withinDir (derivedDestdir nfkd outdir artist title) q = true) := by
  set D := derivedDestdir nfkd outdir artist title with hDdef
  have w1 : withinDir D (D ++ str "/metadata.json") = true :=
    withinDir_slash_append D (str "metadata.json")
  have w2 : withinDir D (pyJoin D (str "cover.jpg")) = true :=
    withinDir_pyJoin D _ hD (by decide)
  have w3 : ∀ ext : Str,
      withinDir D (pyJoin D (replaceAll fn (str ".aax") ('.' :: ext))) = true := by
    intro ext
    apply withinDir_pyJoin D _ hD
    exact replaceAll_head_ne_slash fn (str ".aax") ('.' :: ext) hfn (by simp) (by simp)
  constructor
  · intro st hst p hp
    simp only [convert_file, hA, hT] at hst
    rcases List.mem_append.1 hst with h | h
    · rcases List.mem_append.1 h with h | h
      · split at h
        · exact absurd h (List.not_mem_nil st)
        · rw [List.mem_singleton] at h
          subst h
          exact absurd hp (List.not_mem_nil p)
      · rw [List.mem_singleton] at h
        subst h
        rw [stageWritePaths, List.mem_singleton] at hp
        subst hp
        exact w1
    · split at h
      · exact absurd h (List.not_mem_nil st)
      · rcases List.mem_append.1 h with h | h
        · rw [List.mem_singleton] at h
          subst h
          rw [stageWritePaths, List.mem_singleton] at hp
          subst hp
          exact w2
        · split at h
          · exact absurd h (List.not_mem_nil st)
          · split at h
            · rw [List.mem_singleton] at h
              subst h
              exact absurd hp (List.not_mem_nil p)
            · rcases hcod : codecs container with _ | ⟨cdc, ext, ctr⟩ <;>
                rw [hcod] at h
              · exact absurd h (List.not_mem_nil st)
              · rcases List.mem_append.1 h with h | h
                · split at h
                  · rw [List.mem_singleton] at h
                    subst h
                    exact absurd hp (List.not_mem_nil p)
                  · exact absurd h (List.not_mem_nil st)
                · split at h
                  · rw [List.mem_singleton] at h
                    subst h
                    exact absurd hp (List.not_mem_nil p)
                  · rcases List.mem_append.1 h with h | h
                    · rw [List.mem_singleton] at h
                      subst h
                      rw [stageWritePaths, List.mem_singleton] at hp
                      subst hp
                      exact w3 ext
                    · split at h
                      · exact absurd h (List.not_mem_nil st)
                      · rw [List.mem_singleton] at h
                        subst h
                        exact absurd hp (List.not_mem_nil p)
  · intro q hq
    simp only [split_with_ffmpeg] at hq
    rw [List.mem_map] at hq
    obtain ⟨⟨i, c⟩, _, rfl⟩ := hq
    exact withinDir_pyJoin D _ hD (chapterFilename_head_ne_slash nfkd (i + 1) c.title _)

/-- C10 witness: for the relative input `book.aax` the metadata snapshot
path lies within the derived destination directory `Audiobooks/A/B`. -/
theorem c10_paths_within_destdir_witness :
    withinDir (derivedDestdir id (str "Audiobooks") (str "A") (str "B"))
      (derivedDestdir id (str "Audiobooks") (str "A") (str "B") ++
        str "/metadata.json") = true :=
  (c10_paths_within_destdir id ⟨false, false, false, false, false, false, false, false⟩
    ⟨true, [], false, 0⟩ "mp3" (str "Audiobooks") (str "book.aax")
    ⟨⟨⟨some (str "A"), some (str "B"), none, none, none, none, none⟩,
      str "64000", 0⟩, []⟩ (str "A") (str "B") (fun _ => 0) [] rfl rfl (by decide)
    (by decide)).1
    (Stage.writeMetadata
      (derivedDestdir id (str "Audiobooks") (str "A") (str "B") ++
        str "/metadata.json"))
    (by decide)
    (derivedDestdir id (str "Audiobooks") (str "A") (str "B") ++
      str "/metadata.json")
    (by decide)

/-- C10 counterexample: for the absolute input `/data/book.aax` the
intermediate transcoded file is written to `/data/book.mp3`, OUTSIDE the
derived destination directory `Audiobooks/A/B` — `os.path.join` discards the
destination when the second component is absolute. -/
theorem c10_counterexample :
    Stage.transcode (str "/data/book.mp3") ∈
      convert_file id ⟨false, false, false, false, false, false, false, false⟩
        ⟨true, [], false, 0⟩ "mp3" (str "Audiobooks") (str "/data/book.aax")
        ⟨⟨⟨some (str "A"), some (str "B"), none, none, none, none, none⟩,
          str "64000", 0⟩, []⟩ ∧
    derivedDestdir id (str "Audiobooks") (str "A") (str "B") =
      str "Audiobooks/A/B" ∧
    withinDir (str "Audiobooks/A/B") (str "/data/book.mp3") = false := by
  refine ⟨?_, ?_, ?_⟩ <;> decide

/-- C2 (amended): for the stream-copy (non-mp3) strategy, an empty chapter
sequence yields an empty boundary sequence, and the splitter issues no
per-chapter invocation, writes no chapter file, and reports success.  For
the mp3 (binary-split) strategy an empty chapter sequence is NOT an empty
result: boundary calculation fails with an index error (see the
counterexample). -/
theorem c2_empty_chapters_noop (container : String) (hc : container ≠ "mp3")
    (nfkd : Str → Str) (fl : Flags) (exits : ℕ → ℤ) (destdir : Str) :
    get_splitpoints container [] = some [] ∧
    (split_with_ffmpeg nfkd fl exits destdir container []).outFiles = [] ∧
    (split_with_ffmpeg nfkd fl exits destdir container []).success = true := by
  refine ⟨?_, rfl, rfl⟩
  unfold get_splitpoints
  rw [if_neg hc]
  rfl

/-- C2 witness: the m4a container with no chapters — empty boundaries, no
chapter invocations, success reported. -/
theorem c2_empty_chapters_noop_witness :
    get_splitpoints "m4a" [] = some [] ∧
    (split_with_ffmpeg id ⟨false, false, false, false, false, false, false, false⟩
      (fun _ => 0) (str "Audiobooks/A/B") "m4a" []).outFiles = [] ∧
    (split_with_ffmpeg id ⟨false, false, false, false, false, false, false, false⟩
      (fun _ => 0) (str "Audiobooks/A/B") "m4a" []).success = true :=
  c2_empty_chapters_noop "m4a" (by decide) id
    ⟨false, false, false, false, false, false, false, false⟩ (fun _ => 0)
    (str "Audiobooks/A/B")

theorem progressLoop_bounds (total : ℚ) :
    ∀ (lines : List Str) (current : ℤ), current ≤ 100 →
      (∀ x ∈ progressLoop total lines current, current ≤ x ∧ x ≤ 100) ∧
      List.Chain' (· ≤ ·) (progressLoop total lines current) := by
  intro lines
  induction lines with
  | nil =>
    intro current _
    simp [progressLoop]
  | cons l rest ih =>
    intro current hcur
    simp only [progressLoop]
    split
    · split
      · rename_i hlt
        have h100 : lineProgress total (pyStrip l) ≤ 100 := min_le_right _ _
        obtain ⟨ihm, ihc⟩ := ih (lineProgress total (pyStrip l)) h100
        constructor
        · intro x hx
          rw [List.mem_cons] at hx
          rcases hx with rfl | hx
          · exact ⟨le_of_lt hlt, h100⟩
          · exact ⟨le_trans (le_of_lt hlt) (ihm x hx).1, (ihm x hx).2⟩
        · rw [List.chain'_cons']
          exact ⟨fun y hy => (ihm y (List.mem_of_mem_head? hy)).1, ihc⟩
      · exact ih current hcur
    · split
      · constructor
        · intro x hx
          rw [List.mem_singleton] at hx
          subst hx
          exact ⟨hcur, le_refl 100⟩
        · simp
      · exact ih current hcur

theorem progressLoop_end_marker (total : ℚ) :
    ∀ (lines : List Str) (current : ℤ),
      str "progress=end" ∈ lines.map pyStrip →
      (progressLoop total lines current).getLast? = some 100 := by
  intro lines
  induction lines with
  | nil =>
    intro current hm
    simp at hm
  | cons l rest ih =>
    intro current hm
    rw [List.map_cons, List.mem_cons] at hm
    simp only [progressLoop]
    split
    · rename_i hpre
      have hm' : str "progress=end" ∈ rest.map pyStrip := by
        rcases hm with hm | hm
        · exfalso
          rw [← hm] at hpre
          exact absurd hpre (by decide)
        · exact hm
      split
      · have hL := ih (lineProgress total (pyStrip l)) hm'
        cases hLl : progressLoop total rest (lineProgress total (pyStrip l)) with
        | nil => rw [hLl] at hL; simp at hL
        | cons y ys =>
          rw [hLl] at hL
          rw [List.getLast?_cons_cons]
          exact hL
      · exact ih current hm'
    · split
      · rfl
      · rename_i hpre hend
        have hm' : str "progress=end" ∈ rest.map pyStrip := by
          rcases hm with hm | hm
          · exact absurd hm.symm hend
          · exact hm
        exact ih current hm'

/-- C9 (amended): within one progress-tracked execution the reported
percentage values are monotonically non-decreasing, and whenever the
consumed line sequence contains the terminal `progress=end` marker the final
reported value is exactly 100.  Without that marker (e.g. the transcoder
dies mid-stream) the final value can be below 100 — see the
counterexample. -/
theorem c9_progress_monotone_final (total : ℚ) (lines : List Str) :
    List.Chain' (· ≤ ·) (runProgress total lines) ∧
    (str "progress=end" ∈ lines.map pyStrip →
      (runProgress total lines).getLast? = some 100) :=
  ⟨(progressLoop_bounds total lines 0 (by norm_num)).2,
   fun hm => progressLoop_end_marker total lines 0 hm⟩

/-- C9 witness: a stream that ends with the terminal marker reports 100
last. -/
theorem c9_progress_monotone_final_witness :
    (runProgress 200 [str "progress=end"]).getLast? = some 100 :=
  (c9_progress_monotone_final 200 [str "progress=end"]).2 (by decide)

/-- C9 counterexample: a stream consumed WITHOUT the terminal `progress=end`
marker (the transcoder died half-way) ends at 50, not 100 — "always ends at
exactly 100" does not hold of every consumed line sequence. -/
theorem c9_counterexample :
    runProgress 100 [str "out_time=50"] = [50] ∧
    (runProgress 100 [str "out_time=50"]).getLast? ≠ some 100 := by
  have hn : natOfDigits (str "50") = 50 := by decide
  have h50 : parseFloat (str "50") = some 50 := by
    have e : parseFloat (str "50") = some ((1 : ℚ) * (natOfDigits (str "50") : ℚ)) := rfl
    rw [e, hn]
    norm_num
  have ht : parse_ffmpeg_time (str "50") = 50 := by
    have e : parse_ffmpeg_time (str "50") = (parseFloat (str "50")).getD 0 := rfl
    rw [e, h50]
    rfl
  have hl : lineProgress 100 (str "out_time=50") = 50 := by
    have e : lineProgress 100 (str "out_time=50") =
        min (pyInt (parse_ffmpeg_time (str "50") / 100 * 100)) 100 := rfl
    rw [e, ht]
    have e2 : pyInt ((50 : ℚ) / 100 * 100) = 50 := by
      rw [pyInt_of_nonneg _ (by norm_num)]
      norm_num
    rw [e2]
    omega
  have hrun : runProgress 100 [str "out_time=50"] = [50] := by
    have e : runProgress 100 [str "out_time=50"] =
        if (0 : ℤ) < lineProgress 100 (str "out_time=50") then
          [lineProgress 100 (str "out_time=50")]
        else [] := rfl
    rw [e, hl]
    norm_num
  refine ⟨hrun, ?_⟩
  rw [hrun]
  decide

end Aax2mp3
